import Mathlib

/-!
Verification development for the ngl-data-proxy repository: a two-tier
(memory / persistent) chunk cache for remote trajectory data, plus the
binary wire-format decoders of its mdsrv data source.

Shallow embedding conventions:
- Byte buffers are lists of naturals (each byte a value below 256).
- Float32 values are represented by their 32-bit little-endian bit
  patterns (the code only reinterprets bytes, it never computes with the
  floats, so the bit-pattern view is exact).
- Async effects (data-source fetches, persistent-store reads and writes)
  are passed in explicitly as oracle arguments or boolean outcome flags.
- Fallible code returns Except; a JavaScript throw that leaves earlier
  mutations in place is modelled by returning the error together with the
  partially mutated state.
-/

namespace NglProxy

/-- A decoded trajectory frame: coordinate words and box-matrix words,
each a 32-bit float bit pattern (source: type FrameData / ParsedFrameData). -/
structure FrameData where
  coords : List Nat
  box : List Nat
deriving Repr, DecidableEq

/-- Group a byte list into 32-bit little-endian words, as a Float32Array
view over the bytes does; leftover bytes below one word are impossible at
the call sites because the typed-array constructor checks divisibility. -/
def wordsOf : List Nat → List Nat
  | b0 :: b1 :: b2 :: b3 :: rest =>
      (b0 + 256 * (b1 + 256 * (b2 + 256 * b3))) :: wordsOf rest
  | _ => []

/-- Big-endian 32-bit read, as DataView.getUint32 with littleEndian = false. -/
def u32be (b0 b1 b2 b3 : Nat) : Nat :=
  ((b0 * 256 + b1) * 256 + b2) * 256 + b3

/-- Big-endian 4-byte encoding of a 32-bit value (used to build wire-format-B
records for statements about the decoder). -/
def u32beBytes (n : Nat) : List Nat :=
  [n / 16777216 % 256, n / 65536 % 256, n / 256 % 256, n % 256]

/-- Source: parseSingleFrameBuffer (wire format A).
Layout: bytes 0-3 frame-count marker, 4-7 timestamp (both ignored),
8-43 nine box floats, 44.. the coordinate floats. A buffer below 44
bytes throws; a coordinate region whose byte length is not a multiple
of 4 makes the Float32Array constructor throw a RangeError. -/
def parseSingleFrameBuffer (buffer : List Nat) : Except String FrameData :=
  if buffer.length < 44 then
    .error "Frame buffer is too small to be valid."
  else if (buffer.length - 44) % 4 ≠ 0 then
    .error "RangeError: coordinate byte length is not a multiple of 4."
  else
    .ok { coords := wordsOf (buffer.drop 44),
          box := wordsOf ((buffer.drop 8).take 36) }

/-- Source: the loop of parseChunkedBuffer, recursing on the unread suffix
of the buffer. Fewer than 4 remaining bytes cannot hold the 4-byte length
header, so the loop breaks with the frames decoded so far; a declared
record length that overruns the remaining bytes also breaks; a throw from
parseSingleFrameBuffer propagates. -/
def parseChunkGo : List Nat → Except String (List FrameData)
  | [] => .ok []
  | b0 :: b1 :: b2 :: b3 :: rest =>
      let frameLength := u32be b0 b1 b2 b3
      if frameLength > rest.length then
        .ok []
      else
        match parseSingleFrameBuffer (rest.take frameLength) with
        | .error e => .error e
        | .ok f =>
            match parseChunkGo (rest.drop frameLength) with
            | .error e => .error e
            | .ok fs => .ok (f :: fs)
  | _ => .ok []
termination_by xs => xs.length
decreasing_by
  simp [List.length_drop]
  omega

/-- Source: parseChunkedBuffer (wire format B), a sequence of
4-byte-big-endian-length-headed records. -/
def parseChunkedBuffer (buffer : List Nat) : Except String (List FrameData) :=
  parseChunkGo buffer

/-- A wire-format-B record: 4-byte big-endian length header, then the payload. -/
def encodeRecord (payload : List Nat) : List Nat :=
  u32beBytes payload.length ++ payload

/-- A payload wire-format-A decodes without error: at least the 44 header
bytes, and whole 32-bit words in the coordinate region. -/
def wfPayload (payload : List Nat) : Prop :=
  44 ≤ payload.length ∧ (payload.length - 44) % 4 = 0

instance (payload : List Nat) : Decidable (wfPayload payload) := by
  unfold wfPayload
  infer_instance

/-- The frame a well-formed wire-format-A payload decodes to. -/
def frameOf (payload : List Nat) : FrameData :=
  { coords := wordsOf (payload.drop 44),
    box := wordsOf ((payload.drop 8).take 36) }

/-!
Source: class LRUCache (map plus doubly linked recency list). The list of
entries abstracts the linked list: head of the list is the most recently
used node, the last element is the least recently used tail. The map and
the list of the source always hold the same keys, so one list suffices.
A capacity of none models the Infinity capacity of the tier-2 cache, for
which the size-greater-than-capacity test is always false.
-/
structure LRU (K V : Type) where
  capacity : Option Nat
  entries : List (K × V)
deriving Repr

/-- Map lookup (cache.get(key).value without the recency move). -/
def LRU.find [BEq K] (c : LRU K V) (k : K) : Option V :=
  (c.entries.find? (fun p => p.1 == k)).map (·.2)

/-- Source: LRUCache.has. -/
def LRU.has [BEq K] (c : LRU K V) (k : K) : Bool :=
  (c.find k).isSome

/-- Source: LRUCache.get — on a hit, moveToHead the node and return its
value; on a miss, no state change. -/
def LRU.get [BEq K] (c : LRU K V) (k : K) : Option V × LRU K V :=
  match c.entries.find? (fun p => p.1 == k) with
  | some kv =>
      (some kv.2, { c with entries := kv :: c.entries.filter (fun p => !(p.1 == k)) })
  | none => (none, c)

/-- Source: LRUCache.set — on a present key, update the value and
moveToHead (never evicts); on a fresh key, addToHead and, when the size
now exceeds the capacity, evictTail, returning the evicted pair. -/
def LRU.set [BEq K] (c : LRU K V) (k : K) (v : V) : LRU K V × Option (K × V) :=
  if c.has k then
    ({ c with entries := (k, v) :: c.entries.filter (fun p => !(p.1 == k)) }, none)
  else
    let grown := (k, v) :: c.entries
    let over := match c.capacity with
      | none => false
      | some cap => grown.length > cap
    if over then
      ({ c with entries := grown.dropLast }, grown.getLast?)
    else
      ({ c with entries := grown }, none)

/-!
Source: class TrajectoryProxy. The persistent tier-2 blob store (idb-keyval
over one IndexedDB store) is modelled as an association list from chunk
index to the stored chunk; its get, set and del calls are synchronous here,
with the outcome of a fallible set passed in as a boolean flag.
-/

/-- Store lookup: idb-keyval get on the proxy-owned store. -/
def storeGet (store : List (Nat × List FrameData)) (k : Nat) : Option (List FrameData) :=
  (store.find? (fun p => p.1 == k)).map (·.2)

/-- Store write: idb-keyval set (replace or insert the key). -/
def storeSet (store : List (Nat × List FrameData)) (k : Nat) (v : List FrameData) :
    List (Nat × List FrameData) :=
  (k, v) :: store.filter (fun p => !(p.1 == k))

/-- Store delete: idb-keyval del. -/
def storeDel (store : List (Nat × List FrameData)) (k : Nat) :
    List (Nat × List FrameData) :=
  store.filter (fun p => !(p.1 == k))

/-- Constructor options of TrajectoryProxy, defaults already applied. -/
structure ProxyConfig where
  targetChunkSizeInBytes : Nat
  l1CacheSizeInChunks : Nat
  l2CacheSizeInBytes : Nat
deriving Repr

/-- Mutable fields of a TrajectoryProxy instance. metadata holds the raw
getMetadata response: none for a nullish response, some fc where fc is
some n when the frameCount field is the number n and none when it is
missing or not a number. pendingFetches maps a chunk index to an abstract
promise identifier. l2CurrentSizeInBytes is an integer because the source
subtracts from a JavaScript number. -/
structure ProxyState where
  l1Cache : LRU Nat (List FrameData)
  l2Cache : LRU Nat Nat
  l2Store : List (Nat × List FrameData)
  l2CurrentSizeInBytes : Int
  metadata : Option (Option Nat)
  frameSizeInBytes : Option Nat
  framesPerChunk : Option Nat
  isTransparent : Bool
  lastRequestedChunkIndex : Option Nat
  pendingFetches : List (Nat × Nat)
deriving Repr

/-- The state the constructor produces: both caches empty (tier 1 bounded
by l1CacheSizeInChunks entries, tier 2 unbounded in count), a fresh empty
store, everything else unset. -/
def initialState (cfg : ProxyConfig) : ProxyState :=
  { l1Cache := { capacity := some cfg.l1CacheSizeInChunks, entries := [] }
    l2Cache := { capacity := none, entries := [] }
    l2Store := []
    l2CurrentSizeInBytes := 0
    metadata := none
    frameSizeInBytes := none
    framesPerChunk := none
    isTransparent := false
    lastRequestedChunkIndex := none
    pendingFetches := [] }

/-- Lookup in the pendingFetches map. -/
def lookupPending (st : ProxyState) (chunkIndex : Nat) : Option Nat :=
  (st.pendingFetches.find? (fun p => p.1 == chunkIndex)).map (·.2)

/-- The frameCount the proxy reads off its metadata (0 when unset; the
states the claims quantify over always carry a numeric frameCount). -/
def frameCountOf (st : ProxyState) : Nat :=
  (st.metadata.join).getD 0

/-- Source: TrajectoryProxy.addChunkToL1 — set into the tier-1 cache;
an eviction there needs no further action. -/
def addChunkToL1 (st : ProxyState) (chunkIndex : Nat) (chunkData : List FrameData) :
    ProxyState :=
  { st with l1Cache := (st.l1Cache.set chunkIndex chunkData).1 }

/-- Source: the while loop at the end of addChunkToL2 ("Evict more if over
budget"). Each iteration re-runs l2Cache.set on the very chunk index that
was just inserted; when that set reports an eviction the evicted size is
subtracted and its blob deleted, otherwise the loop breaks. The fuel
argument bounds the iterations; every evicting iteration shrinks the
cache by one entry, so cache size plus one is always enough fuel. -/
def l2EvictLoop (cfg : ProxyConfig) (chunkIndex chunkSize : Nat) :
    ProxyState → Nat → ProxyState
  | st, 0 => st
  | st, fuel + 1 =>
      if st.l2CurrentSizeInBytes > (cfg.l2CacheSizeInBytes : Int) then
        match st.l2Cache.set chunkIndex chunkSize with
        | (l2Next, some ev) =>
            l2EvictLoop cfg chunkIndex chunkSize
              { st with l2Cache := l2Next
                        l2CurrentSizeInBytes := st.l2CurrentSizeInBytes - (ev.2 : Int)
                        l2Store := storeDel st.l2Store ev.1 } fuel
        | (l2Next, none) => { st with l2Cache := l2Next }
      else st

/-- The two statements run when an l2Cache.set reported an eviction:
subtract the evicted size from the byte counter and delete the evicted
blob from the store; with no eviction, nothing happens. -/
def applyL2Eviction (st : ProxyState) (ev : Option (Nat × Nat)) : ProxyState :=
  match ev with
  | some ev =>
      { st with l2CurrentSizeInBytes := st.l2CurrentSizeInBytes - (ev.2 : Int)
                l2Store := storeDel st.l2Store ev.1 }
  | none => st

/-- Source: TrajectoryProxy.addChunkToL2. Mutations happen in source order:
the byte counter grows by the computed chunk size, the recency index is
updated (with the eviction, if any, unaccounted and its blob deleted),
then the blob write happens — setOk gives its outcome; a failing write
throws, leaving the earlier mutations in place — and finally the
over-budget loop runs. -/
def addChunkToL2 (cfg : ProxyConfig) (st : ProxyState) (chunkIndex : Nat)
    (chunkData : List FrameData) (setOk : Bool) :
    Except String Unit × ProxyState :=
  match st.frameSizeInBytes with
  | none => (.error "frameSizeInBytes is not initialized.", st)
  | some fsz =>
      let chunkSize := chunkData.length * fsz
      let st1 := { st with l2CurrentSizeInBytes := st.l2CurrentSizeInBytes + (chunkSize : Int) }
      let setRes := st1.l2Cache.set chunkIndex chunkSize
      let st3 := applyL2Eviction { st1 with l2Cache := setRes.1 } setRes.2
      if setOk then
        let st4 := { st3 with l2Store := storeSet st3.l2Store chunkIndex chunkData }
        (.ok (), l2EvictLoop cfg chunkIndex chunkSize st4 (st4.l2Cache.entries.length + 1))
      else
        (.error "StorageError: persistent-tier set rejected.", st3)

/-- Source: the body of the fetch promise in getOrFetchChunk after
dataSource.getFrames has resolved with chunkData: transactional write
order, tier 2 first, and only when that succeeds the tier-1 write; the
catch clause rethrows the error. -/
def fetchCompletion (cfg : ProxyConfig) (st : ProxyState) (chunkIndex : Nat)
    (chunkData : List FrameData) (setOk : Bool) :
    Except String (List FrameData) × ProxyState :=
  match addChunkToL2 cfg st chunkIndex chunkData setOk with
  | (.ok _, st1) => (.ok chunkData, addChunkToL1 st1 chunkIndex chunkData)
  | (.error e, st1) => (.error e, st1)

/-- Source: the finally handler registered on the fetch promise — on
completion, success or failure alike, the pendingFetches slot for the
chunk index is deleted. -/
def clearPending (st : ProxyState) (chunkIndex : Nat) : ProxyState :=
  { st with pendingFetches := st.pendingFetches.filter (fun p => !(p.1 == chunkIndex)) }

/-- What the synchronous part of getOrFetchChunk does before any await:
which value the caller is handed and whether the underlying
dataSource.getFrames is invoked. -/
inductive FetchOutcome where
  | l1Hit (data : List FrameData)
  | l2Hit (data : List FrameData)
  | reusePending (promiseId : Nat)
  | startFetch (promiseId : Nat) (startFrame endFrame : Nat)
deriving Repr, DecidableEq

/-- Source: TrajectoryProxy.getOrFetchChunk, synchronous phase. Tier-1
lookup (recency refresh on hit); tier-2 index lookup followed by the blob
read — a present index entry with an absent blob falls through to the
miss path; the miss path hands back an already pending fetch when one
exists, and otherwise registers a fresh promise (identifier freshP) and
starts the single dataSource.getFrames call for the chunk frame range. -/
def getOrFetchChunkSync (st : ProxyState) (chunkIndex : Nat) (freshP : Nat) :
    FetchOutcome × ProxyState :=
  match st.l1Cache.get chunkIndex with
  | (some data, l1Next) => (.l1Hit data, { st with l1Cache := l1Next })
  | (none, _) =>
      let missPath : FetchOutcome × ProxyState :=
        match lookupPending st chunkIndex with
        | some p => (.reusePending p, st)
        | none =>
            let fpc := st.framesPerChunk.getD 0
            let startFrame := chunkIndex * fpc
            let endFrame := min ((chunkIndex + 1) * fpc) (frameCountOf st)
            (.startFetch freshP startFrame endFrame,
             { st with pendingFetches := (chunkIndex, freshP) :: st.pendingFetches })
      if st.l2Cache.has chunkIndex then
        match storeGet st.l2Store chunkIndex with
        | some chunkData =>
            let l2Next := (st.l2Cache.get chunkIndex).2
            (.l2Hit chunkData, addChunkToL1 { st with l2Cache := l2Next } chunkIndex chunkData)
        | none => missPath
      else missPath

/-- N concurrent getOrFetchChunk calls for one chunk index, interleaved
before the in-flight fetch completes: in the single-threaded event-loop
model each call runs its synchronous phase to completion in turn. The
ids function supplies the fresh promise identifier a call would register
on a full miss. -/
def runConcurrentCalls (ids : Nat → Nat) (chunkIndex : Nat) :
    ProxyState → Nat → ProxyState × List FetchOutcome
  | st, 0 => (st, [])
  | st, n + 1 =>
      let (out, st1) := getOrFetchChunkSync st chunkIndex (ids n)
      let (stFinal, outs) := runConcurrentCalls ids chunkIndex st1 n
      (stFinal, out :: outs)

/-- Count of calls that invoked the underlying dataSource.getFrames. -/
def countStarts (outs : List FetchOutcome) : Nat :=
  outs.countP (fun o => match o with
    | .startFetch _ _ _ => true
    | _ => false)

/-- Source: TrajectoryProxy.prefetchNextChunk — whether the fire-and-forget
getOrFetchChunk call is issued for the given chunk index: not at all when
the index is at or past the total chunk count, and otherwise only when the
chunk is absent from tier 1, from the tier-2 index and from the pending
fetches. totalChunks is the ceiling of frameCount over framesPerChunk. -/
def prefetchWouldFetch (st : ProxyState) (chunkIndex : Nat) : Bool :=
  let fpc := st.framesPerChunk.getD 0
  let totalChunks := (frameCountOf st + fpc - 1) / fpc
  if chunkIndex ≥ totalChunks then false
  else
    !st.l1Cache.has chunkIndex && !st.l2Cache.has chunkIndex &&
      (lookupPending st chunkIndex).isNone

/-- Source: TrajectoryProxy.getFrame. Effects are supplied as oracles:
getFramesO stands for dataSource.getFrames (used directly in Transparent
mode) and chunkOf for the value getOrFetchChunk resolves with for a chunk
index. Returns the frame the call resolves with — none models resolving
with undefined, since chunk[frameOffset] is read without a bound check —
and the chunk index the prefetch branch actually issues a fetch for, if
any. The frame index is an integer so that the negative half of the bound
check is meaningful. -/
def getFrameModel (st : ProxyState) (frameIndex : Int)
    (getFramesO : Int → Int → List FrameData) (chunkOf : Nat → List FrameData) :
    Except String (Option FrameData) × Option Nat :=
  if st.metadata.isNone || (st.framesPerChunk.isNone && !st.isTransparent) then
    (.error "Proxy not initialized. Call init() first.", none)
  else if frameIndex < 0 || frameIndex ≥ (frameCountOf st : Int) then
    (.error "Frame index is out of bounds.", none)
  else if st.isTransparent then
    (.ok (getFramesO frameIndex (frameIndex + 1)).head?, none)
  else
    let fpc := st.framesPerChunk.getD 0
    let fi := frameIndex.toNat
    let currentChunkIndex := fi / fpc
    let prefetched :=
      if some currentChunkIndex ≠ st.lastRequestedChunkIndex then
        if prefetchWouldFetch st (currentChunkIndex + 1) then
          some (currentChunkIndex + 1)
        else none
      else none
    let chunk := chunkOf currentChunkIndex
    let frameOffset := fi % fpc
    (.ok chunk[frameOffset]?, prefetched)

/-- The measured byte size of a frame: coords.byteLength plus
box.byteLength of the sampled first frame, 4 bytes per float32 element. -/
def frameByteSize (f : FrameData) : Nat :=
  4 * f.coords.length + 4 * f.box.length

/-- Responses of the two data-source calls init makes: the raw getMetadata
response (see ProxyState.metadata for the encoding) and the frame list
getFrames 0 1 resolves with. -/
structure InitOracle where
  metadataResp : Option (Option Nat)
  firstFrames : List FrameData

/-- Source: TrajectoryProxy.init. A truthy metadata field makes a second
call return at once with no data-source call; otherwise the metadata
response is stored, validated to carry a numeric frameCount, the first
frame is fetched to measure frameSizeInBytes, and either Transparent mode
is entered (measured size above the target chunk size) or framesPerChunk
is computed as max 1 (floor of target over measured size). The returned
number counts the data-source calls the run made. -/
def initModel (cfg : ProxyConfig) (st : ProxyState) (o : InitOracle) :
    Except String Unit × ProxyState × Nat :=
  if st.metadata.isSome then (.ok (), st, 0)
  else
    let st1 := { st with metadata := o.metadataResp }
    match o.metadataResp with
    | none =>
        (.error "Metadata must include a frameCount number property.", st1, 1)
    | some none =>
        (.error "Metadata must include a frameCount number property.", st1, 1)
    | some (some _) =>
        match o.firstFrames with
        | [] => (.error "Failed to fetch first frame to determine size.", st1, 2)
        | f :: _ =>
            let fsz := frameByteSize f
            let st2 := { st1 with frameSizeInBytes := some fsz }
            if fsz > cfg.targetChunkSizeInBytes then
              (.ok (), { st2 with isTransparent := true }, 2)
            else
              let fpc := max 1 (cfg.targetChunkSizeInBytes / fsz)
              (.ok (), { st2 with framesPerChunk := some fpc }, 2)

/-- Run a sequence of set operations on an LRU cache, collecting every
eviction the individual sets report, in order. -/
def LRU.setAll [BEq K] (c : LRU K V) : List (K × V) → LRU K V × List (K × V)
  | [] => (c, [])
  | kv :: rest =>
      let r := c.set kv.1 kv.2
      let r2 := r.1.setAll rest
      (r2.1, r.2.toList ++ r2.2)

/-- A byte suffix at which the wire-format-B loop stops without decoding a
frame: fewer than the 4 bytes a length header needs, or a header whose
declared record length overruns the remaining bytes. The empty suffix, the
exact record boundary, is the length-0 instance of the first case. -/
def truncTail (t : List Nat) : Prop :=
  t.length < 4 ∨
    ∃ b0 b1 b2 b3 rest, t = b0 :: b1 :: b2 :: b3 :: rest ∧ rest.length < u32be b0 b1 b2 b3

/-- Concrete configuration for the tier-2 budget scenario: a 10-byte
tier-2 budget. -/
def c2Config : ProxyConfig :=
  { targetChunkSizeInBytes := 64, l1CacheSizeInChunks := 3, l2CacheSizeInBytes := 10 }

/-- Concrete ready state for the tier-2 budget scenario: initialized in
Chunked mode with a measured frame size of 8 bytes and empty tiers. -/
def c2State : ProxyState :=
  { initialState c2Config with
      metadata := some (some 100)
      frameSizeInBytes := some 8
      framesPerChunk := some 8 }

/-- A concrete frame value for scenarios. -/
def aFrame : FrameData := { coords := [0], box := [0] }

/-- Concrete ready state for the prefetch scenario of the spec:
frameCount 250, framesPerChunk 100, Chunked mode, nothing requested yet. -/
def scenario250 : ProxyState :=
  { initialState { targetChunkSizeInBytes := 400, l1CacheSizeInChunks := 3,
                   l2CacheSizeInBytes := 4000 } with
      metadata := some (some 250)
      frameSizeInBytes := some 4
      framesPerChunk := some 100 }

/-- The prefetch-scenario state while a fetch for chunk 2 is in flight
under promise identifier 77. -/
def c3State : ProxyState :=
  { scenario250 with pendingFetches := [(2, 77)] }

/-- The prefetch-scenario state whose tier-2 recency index lists chunk 2
with a recorded size while the backing blob store has no entry for it. -/
def c9State : ProxyState :=
  { scenario250 with l2Cache := { capacity := none, entries := [(2, 400)] } }

/-! Helper lemmas about the LRU embedding. -/

theorem LRU.has_eq_any [BEq K] (c : LRU K V) (k : K) :
    c.has k = c.entries.any (fun p => p.1 == k) := by
  rw [Bool.eq_iff_iff]
  simp [LRU.has, LRU.find, List.find?_isSome, List.any_eq_true]

theorem LRU.find?_eq_none_of_has_false [BEq K] {c : LRU K V} {k : K}
    (h : c.has k = false) : c.entries.find? (fun p => p.1 == k) = none := by
  unfold LRU.has LRU.find at h
  cases hf : c.entries.find? (fun p => p.1 == k) with
  | none => rfl
  | some kv => rw [hf] at h; simp at h

theorem LRU.get_of_has_false [BEq K] {c : LRU K V} {k : K}
    (h : c.has k = false) : c.get k = (none, c) := by
  unfold LRU.get
  rw [LRU.find?_eq_none_of_has_false h]

theorem applyL2Eviction_l1Cache (st : ProxyState) (ev : Option (Nat × Nat)) :
    (applyL2Eviction st ev).l1Cache = st.l1Cache := by
  cases ev <;> rfl

/-- Claim C6: decoding a single wire-format-A frame payload fails for
every buffer shorter than 44 bytes, and a buffer of exactly 44 zero bytes
decodes to a frame with an empty coordinate sequence and the nine-element
zero box (box bytes 8 to 43, coordinates from byte 44 on). -/
theorem C6_single_frame_layout :
    (∀ buffer : List Nat, buffer.length < 44 →
      parseSingleFrameBuffer buffer = .error "Frame buffer is too small to be valid.") ∧
    parseSingleFrameBuffer (List.replicate 44 0) =
      .ok { coords := [], box := List.replicate 9 0 } := by
  refine ⟨fun b hb => ?_, by rfl⟩
  simp [parseSingleFrameBuffer, hb]

/-- Witness for C6 at the concrete 43-byte buffer. -/
theorem C6_single_frame_layout_witness :
    parseSingleFrameBuffer (List.replicate 43 0) =
      .error "Frame buffer is too small to be valid." :=
  C6_single_frame_layout.1 (List.replicate 43 0) (by decide)

/-- Claim C1: in a chunk-miss resolution, when the tier-2 persist fails
the whole operation fails with the error, the tier-1 cache is left
untouched and in particular does not contain the chunk; the tier-1 write
is sequenced strictly after a successful tier-2 write. -/
theorem C1_transactional_write_order (cfg : ProxyConfig) (st : ProxyState)
    (chunkIndex : Nat) (chunkData : List FrameData)
    (h1 : st.l1Cache.has chunkIndex = false) :
    (∃ e, (fetchCompletion cfg st chunkIndex chunkData false).1 = .error e) ∧
    (fetchCompletion cfg st chunkIndex chunkData false).2.l1Cache = st.l1Cache ∧
    (fetchCompletion cfg st chunkIndex chunkData false).2.l1Cache.has chunkIndex = false := by
  cases hf : st.frameSizeInBytes with
  | none =>
      exact ⟨⟨"frameSizeInBytes is not initialized.",
        by simp [fetchCompletion, addChunkToL2, hf]⟩,
        by simp [fetchCompletion, addChunkToL2, hf],
        by simp [fetchCompletion, addChunkToL2, hf, h1]⟩
  | some fsz =>
      have hl1 : (fetchCompletion cfg st chunkIndex chunkData false).2.l1Cache = st.l1Cache := by
        simp [fetchCompletion, addChunkToL2, hf, applyL2Eviction_l1Cache]
      exact ⟨⟨"StorageError: persistent-tier set rejected.",
        by simp [fetchCompletion, addChunkToL2, hf]⟩, hl1, by rw [hl1]; exact h1⟩

/-- Witness for C1 at a concrete ready state and chunk. -/
theorem C1_transactional_write_order_witness :
    (∃ e, (fetchCompletion c2Config c2State 0 [aFrame] false).1 = .error e) ∧
    (fetchCompletion c2Config c2State 0 [aFrame] false).2.l1Cache = c2State.l1Cache ∧
    (fetchCompletion c2Config c2State 0 [aFrame] false).2.l1Cache.has 0 = false :=
  C1_transactional_write_order c2Config c2State 0 [aFrame] (by decide)

/-- Claim C2 against the code, at a concrete failing input: inserting a
16-byte chunk into an empty tier 2 with a 10-byte budget completes
successfully, yet afterwards the byte accounting stands at 16, above the
budget, and the entry is still indexed — the over-budget loop re-inserts
the same chunk index, which never reports an eviction, so no
least-recently-used entry is ever evicted. -/
theorem C2_budget_overrun_on_insert :
    (addChunkToL2 c2Config c2State 0 [aFrame, aFrame] true).1 = .ok () ∧
    (addChunkToL2 c2Config c2State 0 [aFrame, aFrame] true).2.l2CurrentSizeInBytes = 16 ∧
    (c2Config.l2CacheSizeInBytes : Int) < 16 ∧
    (addChunkToL2 c2Config c2State 0 [aFrame, aFrame] true).2.l2Cache.has 0 = true := by
  refine ⟨rfl, rfl, by decide, rfl⟩

/-- Claim C9: with the tier-2 recency index reporting the chunk present
but the blob read coming back absent, getOrFetchChunk neither fails nor
returns an absent value: it falls through to the full-miss path, starts
the remote fetch for the chunk frame range and registers the pending
promise. -/
theorem C9_l2_index_blob_mismatch (st : ProxyState) (chunkIndex freshP : Nat)
    (h1 : st.l1Cache.has chunkIndex = false)
    (h2 : st.l2Cache.has chunkIndex = true)
    (h3 : storeGet st.l2Store chunkIndex = none)
    (h4 : lookupPending st chunkIndex = none) :
    (getOrFetchChunkSync st chunkIndex freshP).1 =
      .startFetch freshP (chunkIndex * st.framesPerChunk.getD 0)
        (min ((chunkIndex + 1) * st.framesPerChunk.getD 0) (frameCountOf st)) ∧
    lookupPending (getOrFetchChunkSync st chunkIndex freshP).2 chunkIndex = some freshP := by
  have hget := LRU.get_of_has_false h1
  unfold lookupPending at h4
  constructor <;> simp [getOrFetchChunkSync, hget, h2, h3, h4, lookupPending]

/-- Witness for C9 at the concrete index-blob-mismatch state. -/
theorem C9_l2_index_blob_mismatch_witness :
    (getOrFetchChunkSync c9State 2 55).1 =
      .startFetch 55 (2 * c9State.framesPerChunk.getD 0)
        (min ((2 + 1) * c9State.framesPerChunk.getD 0) (frameCountOf c9State)) ∧
    lookupPending (getOrFetchChunkSync c9State 2 55).2 2 = some 55 :=
  C9_l2_index_blob_mismatch c9State 2 55 (by decide) (by decide) (by decide) (by decide)

/-- One getOrFetchChunk call during an in-flight fetch for the same
missing chunk returns the pending promise and changes nothing. -/
theorem getOrFetch_reuse (st : ProxyState) {chunkIndex p : Nat} (q : Nat)
    (h1 : st.l1Cache.has chunkIndex = false)
    (h2 : st.l2Cache.has chunkIndex = false)
    (h3 : lookupPending st chunkIndex = some p) :
    getOrFetchChunkSync st chunkIndex q = (.reusePending p, st) := by
  have hget := LRU.get_of_has_false h1
  simp [getOrFetchChunkSync, hget, h2, h3]

/-- Claim C3: while one fetch for a missing chunk index is in flight, any
number N of further getOrFetchChunk calls for it all receive that same
pending promise, the state is unchanged and none of them invokes the
underlying dataSource.getFrames (so it runs exactly once, in the one
in-flight fetch); and the completion handler, on success and failure
alike, removes the pending slot, so a later call starts afresh. -/
theorem C3_single_flight (st : ProxyState) (chunkIndex p : Nat) (ids : Nat → Nat)
    (h1 : st.l1Cache.has chunkIndex = false)
    (h2 : st.l2Cache.has chunkIndex = false)
    (h3 : lookupPending st chunkIndex = some p) :
    (∀ n, runConcurrentCalls ids chunkIndex st n =
      (st, List.replicate n (FetchOutcome.reusePending p))) ∧
    (∀ n, countStarts (runConcurrentCalls ids chunkIndex st n).2 = 0) ∧
    (∀ st2, lookupPending (clearPending st2 chunkIndex) chunkIndex = none) := by
  have hmain : ∀ n, runConcurrentCalls ids chunkIndex st n =
      (st, List.replicate n (FetchOutcome.reusePending p)) := by
    intro n
    induction n with
    | zero => rfl
    | succ n ih =>
        simp [runConcurrentCalls, getOrFetch_reuse st (ids n) h1 h2 h3, ih,
          List.replicate_succ]
  refine ⟨hmain, fun n => ?_, fun st2 => ?_⟩
  · rw [hmain n]
    simp [countStarts, List.countP_eq_zero, List.mem_replicate]
  · unfold lookupPending clearPending
    simp only [Option.map_eq_none', List.find?_eq_none, List.mem_filter]
    intro x hx
    simpa using hx.2

/-- Witness for C3 at the concrete in-flight state, with three callers. -/
theorem C3_single_flight_witness :
    runConcurrentCalls (fun n => 100 + n) 2 c3State 3 =
      (c3State, List.replicate 3 (FetchOutcome.reusePending 77)) :=
  (C3_single_flight c3State 2 77 (fun n => 100 + n)
    (by decide) (by decide) (by decide)).1 3

/-- In Chunked mode, a bounds-valid getFrame resolves with the element of
the resolved chunk at the intra-chunk offset, read without any length
check. -/
theorem getFrame_chunked_valid (st : ProxyState) (fc fpc : Nat)
    (hmeta : st.metadata = some (some fc)) (hfpc : st.framesPerChunk = some fpc)
    (ht : st.isTransparent = false) (fi : Int) (h0 : 0 ≤ fi) (hlt : fi < (fc : Int))
    (gfo : Int → Int → List FrameData) (chunkOf : Nat → List FrameData) :
    (getFrameModel st fi gfo chunkOf).1 =
      .ok (chunkOf (fi.toNat / fpc))[fi.toNat % fpc]? := by
  have hcnt : frameCountOf st = fc := by simp [frameCountOf, hmeta]
  simp [getFrameModel, hmeta, hfpc, ht, hcnt, not_lt.mpr h0, not_le.mpr hlt]

/-- Claim C5: getFrame fails with a range error for every frame index
outside the valid range; for a valid index in Chunked mode it resolves
the frame at offset frameIndex mod framesPerChunk of chunk
frameIndex div framesPerChunk; and in the frameCount 250,
framesPerChunk 100 scenario, frame 249 reads offset 49 of chunk 2 and
issues no prefetch (chunk 3 is past the 3-chunk total). -/
theorem C5_index_arithmetic (st : ProxyState) (fc fpc : Nat)
    (hmeta : st.metadata = some (some fc)) (hfpc : st.framesPerChunk = some fpc)
    (ht : st.isTransparent = false)
    (gfo : Int → Int → List FrameData) (chunkOf : Nat → List FrameData) :
    (∀ fi : Int, fi < 0 ∨ (fc : Int) ≤ fi →
      (getFrameModel st fi gfo chunkOf).1 = .error "Frame index is out of bounds.") ∧
    (∀ fi : Int, 0 ≤ fi → fi < (fc : Int) →
      (getFrameModel st fi gfo chunkOf).1 =
        .ok (chunkOf (fi.toNat / fpc))[fi.toNat % fpc]?) ∧
    getFrameModel scenario250 249 gfo chunkOf = (.ok (chunkOf 2)[49]?, none) := by
  have hcnt : frameCountOf st = fc := by simp [frameCountOf, hmeta]
  refine ⟨fun fi hout => ?_, fun fi h0 hlt =>
    getFrame_chunked_valid st fc fpc hmeta hfpc ht fi h0 hlt gfo chunkOf, ?_⟩
  · rcases hout with hneg | hge
    · simp [getFrameModel, hmeta, hfpc, hcnt, hneg]
    · simp [getFrameModel, hmeta, hfpc, hcnt, hge]
  · rfl

/-- Witness for C5 at frame index 260 (out of bounds) and frame index 126
(chunk 1, offset 26) of the 250-frame scenario. -/
theorem C5_index_arithmetic_witness :
    (getFrameModel scenario250 260 (fun _ _ => []) (fun i => [⟨[i], []⟩])).1 =
      .error "Frame index is out of bounds." ∧
    (getFrameModel scenario250 126 (fun _ _ => []) (fun i => [⟨[i], []⟩])).1 =
      .ok ([(⟨[1], []⟩ : FrameData)])[26]? := by
  have h := C5_index_arithmetic scenario250 250 100 rfl rfl rfl
    (fun _ _ => []) (fun i => [⟨[i], []⟩])
  exact ⟨h.1 260 (by decide), h.2.1 126 (by decide) (by decide)⟩

/-- Claim C10: in Chunked mode getFrame never checks the intra-chunk
offset against the resolved chunk length: when the data source resolved
the chunk with too few frames, a bounds-valid getFrame resolves
successfully with an absent value rather than raising. -/
theorem C10_no_intra_chunk_bounds_check (st : ProxyState) (fc fpc : Nat)
    (hmeta : st.metadata = some (some fc)) (hfpc : st.framesPerChunk = some fpc)
    (ht : st.isTransparent = false) (fi : Int) (h0 : 0 ≤ fi) (hlt : fi < (fc : Int))
    (gfo : Int → Int → List FrameData) (chunkOf : Nat → List FrameData)
    (hshort : (chunkOf (fi.toNat / fpc)).length ≤ fi.toNat % fpc) :
    (getFrameModel st fi gfo chunkOf).1 = .ok none := by
  rw [getFrame_chunked_valid st fc fpc hmeta hfpc ht fi h0 hlt gfo chunkOf]
  rw [List.getElem?_eq_none hshort]

/-- Witness for C10: frame 249 of the scenario when the last chunk came
back with only 49 frames. -/
theorem C10_no_intra_chunk_bounds_check_witness :
    (getFrameModel scenario250 249 (fun _ _ => [])
      (fun _ => List.replicate 49 aFrame)).1 = .ok none :=
  C10_no_intra_chunk_bounds_check scenario250 250 100 rfl rfl rfl 249
    (by decide) (by decide) (fun _ _ => []) (fun _ => List.replicate 49 aFrame)
    (by decide)

/-- Claim C8: a first init in the ready path computes
framesPerChunk = max 1 (targetChunkSizeInBytes div measured frame size)
and stays in Chunked mode exactly when the measured single-frame size
does not exceed the target chunk size, switching to Transparent mode
otherwise; a second init after a successful one returns at once with the
state unchanged and zero further data-source calls. -/
theorem C8_init_chunking_and_idempotence (cfg : ProxyConfig) (fc : Nat)
    (f : FrameData) (rest : List FrameData) (o2 : InitOracle)
    (_hpos : 0 < frameByteSize f) :
    (initModel cfg (initialState cfg) ⟨some (some fc), f :: rest⟩).1 = .ok () ∧
    ((initModel cfg (initialState cfg) ⟨some (some fc), f :: rest⟩).2.1.isTransparent =
      true ↔ cfg.targetChunkSizeInBytes < frameByteSize f) ∧
    (frameByteSize f ≤ cfg.targetChunkSizeInBytes →
      (initModel cfg (initialState cfg) ⟨some (some fc), f :: rest⟩).2.1.framesPerChunk =
        some (max 1 (cfg.targetChunkSizeInBytes / frameByteSize f))) ∧
    initModel cfg (initModel cfg (initialState cfg) ⟨some (some fc), f :: rest⟩).2.1 o2 =
      (.ok (), (initModel cfg (initialState cfg) ⟨some (some fc), f :: rest⟩).2.1, 0) := by
  by_cases hgt : cfg.targetChunkSizeInBytes < frameByteSize f
  · simp only [initModel, initialState]
    simp [hgt]
  · simp only [initModel, initialState]
    simp [hgt]

/-- Witness for C8: box-only 36-byte frames against a 100-byte target
give 2 frames per chunk; re-running init performs no further calls. -/
theorem C8_init_chunking_and_idempotence_witness :
    (initModel ⟨100, 3, 1000⟩ (initialState ⟨100, 3, 1000⟩)
      ⟨some (some 250), [⟨[], List.replicate 9 0⟩]⟩).1 = .ok () ∧
    ((initModel ⟨100, 3, 1000⟩ (initialState ⟨100, 3, 1000⟩)
      ⟨some (some 250), [⟨[], List.replicate 9 0⟩]⟩).2.1.isTransparent = true ↔
      (100 : Nat) < frameByteSize ⟨[], List.replicate 9 0⟩) ∧
    (frameByteSize ⟨[], List.replicate 9 0⟩ ≤ 100 →
      (initModel ⟨100, 3, 1000⟩ (initialState ⟨100, 3, 1000⟩)
        ⟨some (some 250), [⟨[], List.replicate 9 0⟩]⟩).2.1.framesPerChunk =
        some (max 1 (100 / frameByteSize ⟨[], List.replicate 9 0⟩))) ∧
    initModel ⟨100, 3, 1000⟩ (initModel ⟨100, 3, 1000⟩ (initialState ⟨100, 3, 1000⟩)
        ⟨some (some 250), [⟨[], List.replicate 9 0⟩]⟩).2.1 ⟨none, []⟩ =
      (.ok (), (initModel ⟨100, 3, 1000⟩ (initialState ⟨100, 3, 1000⟩)
        ⟨some (some 250), [⟨[], List.replicate 9 0⟩]⟩).2.1, 0) :=
  C8_init_chunking_and_idempotence ⟨100, 3, 1000⟩ 250 ⟨[], List.replicate 9 0⟩ []
    ⟨none, []⟩ (by decide)

/-- The big-endian length header encoding decodes to the encoded value. -/
theorem u32be_u32beBytes (n : Nat) (h : n < 4294967296) :
    u32be (n / 16777216 % 256) (n / 65536 % 256) (n / 256 % 256) (n % 256) = n := by
  unfold u32be
  omega

/-- A well-formed wire-format-A payload decodes to its frame. -/
theorem parseSingle_wf (p : List Nat) (h : wfPayload p) :
    parseSingleFrameBuffer p = .ok (frameOf p) := by
  obtain ⟨h1, h2⟩ := h
  simp [parseSingleFrameBuffer, frameOf, Nat.not_lt.mpr h1, h2]

/-- The container loop stops with no further frames at a truncating
suffix: below 4 bytes, or a declared length past the remaining bytes. -/
theorem parseChunkGo_trunc (t : List Nat) (h : truncTail t) :
    parseChunkGo t = .ok [] := by
  rcases h with hlen | ⟨b0, b1, b2, b3, rest, rfl, hover⟩
  · rcases t with _ | ⟨a, _ | ⟨b, _ | ⟨c, _ | ⟨d, r⟩⟩⟩⟩
    · rw [parseChunkGo]
    · rw [parseChunkGo] <;> simp
    · rw [parseChunkGo] <;> simp
    · rw [parseChunkGo] <;> simp
    · exact absurd hlen (by simp)
  · rw [parseChunkGo]
    simp [hover]

/-- Decoding one well-formed record off the front of the container
decodes its frame and continues with the remaining bytes. -/
theorem parseChunkGo_record (p L : List Nat) (hwf : wfPayload p)
    (hlt : p.length < 4294967296) :
    parseChunkGo (encodeRecord p ++ L) =
      (parseChunkGo L).map (fun fs => frameOf p :: fs) := by
  have hstep : encodeRecord p ++ L =
      (p.length / 16777216 % 256) :: (p.length / 65536 % 256) ::
        (p.length / 256 % 256) :: (p.length % 256) :: (p ++ L) := by
    simp [encodeRecord, u32beBytes]
  rw [hstep, parseChunkGo, u32be_u32beBytes p.length hlt]
  have hnover : ¬ p.length > (p ++ L).length := by
    simp
  rw [if_neg hnover]
  have htake : (p ++ L).take p.length = p := List.take_left p L
  have hdrop : (p ++ L).drop p.length = L := List.drop_left p L
  rw [htake, hdrop, parseSingle_wf p hwf]
  cases parseChunkGo L <;> rfl

/-- Claim C4: decoding the wire-format-B container of any run of
well-formed records followed by a truncating suffix — too few bytes for a
4-byte length header, or a declared record length past the end of the
buffer — returns exactly the frames of the complete records (partial
success, not a failure); the empty suffix is the buffer exhausted exactly
at a record boundary, for which every record decodes. -/
theorem C4_container_truncation (payloads : List (List Nat)) (t : List Nat)
    (hwf : ∀ p ∈ payloads, wfPayload p ∧ p.length < 4294967296)
    (htail : truncTail t) :
    parseChunkedBuffer ((payloads.map encodeRecord).flatten ++ t) =
      .ok (payloads.map frameOf) := by
  unfold parseChunkedBuffer
  induction payloads with
  | nil => simpa using parseChunkGo_trunc t htail
  | cons p ps ih =>
      have hp := hwf p (by simp)
      simp only [List.map_cons, List.flatten_cons, List.append_assoc]
      rw [parseChunkGo_record p _ hp.1 hp.2]
      rw [ih (fun q hq => hwf q (by simp [hq]))]
      rfl

/-- Witness for C4: two well-formed records (44 and 48 payload bytes)
followed by a 3-byte truncating suffix decode to exactly the two frames. -/
theorem C4_container_truncation_witness :
    parseChunkedBuffer
      (([List.replicate 44 0, List.replicate 48 1].map encodeRecord).flatten ++
        [0, 0, 0]) =
      .ok ([List.replicate 44 0, List.replicate 48 1].map frameOf) :=
  C4_container_truncation [List.replicate 44 0, List.replicate 48 1] [0, 0, 0]
    (by decide) (Or.inl (by decide))

/-- A set of a fresh key while strictly under a finite capacity prepends
the entry and evicts nothing. -/
theorem LRU.set_fresh_under [BEq K] (c : LRU K V) {k : K} (v : V) {cap : Nat}
    (hcap : c.capacity = some cap) (hfresh : c.has k = false)
    (hlen : c.entries.length < cap) :
    c.set k v = ({ c with entries := (k, v) :: c.entries }, none) := by
  unfold LRU.set
  rw [hfresh]
  simp [hcap, Nat.not_lt.mpr hlen, Nat.lt_irrefl]

/-- Filling an LRU cache with fresh, pairwise distinct keys that keep it
within a finite capacity evicts nothing and stacks the inserts newest
first on the existing entries. -/
theorem LRU.setAll_fill [BEq K] [LawfulBEq K] (cap : Nat) :
    ∀ (kvs : List (K × V)) (c : LRU K V),
      c.capacity = some cap →
      c.entries.length + kvs.length ≤ cap →
      (∀ kv ∈ kvs, c.has kv.1 = false) →
      (kvs.map Prod.fst).Nodup →
      c.setAll kvs = ({ c with entries := kvs.reverse ++ c.entries }, []) := by
  intro kvs
  induction kvs with
  | nil =>
      intro c hcap hlen hfresh hnd
      simp [LRU.setAll]
  | cons kv rest ih =>
      intro c hcap hlen hfresh hnd
      have hk : c.has kv.1 = false := hfresh kv (by simp)
      have hset := LRU.set_fresh_under c kv.2 hcap hk (by simp at hlen; omega)
      rw [List.map_cons, List.nodup_cons] at hnd
      have hrest : ∀ q ∈ rest, (({ c with entries := (kv.1, kv.2) :: c.entries } :
          LRU K V)).has q.1 = false := by
        intro q hq
        rw [LRU.has_eq_any]
        simp only [List.any_cons]
        have hm : q.1 ∈ rest.map Prod.fst := List.mem_map.mpr ⟨q, hq, rfl⟩
        have h1 : (kv.1 == q.1) = false := by
          have : kv.1 ≠ q.1 := fun he => hnd.1 (he ▸ hm)
          simpa using this
        have h2 := hfresh q (by simp [hq])
        rw [LRU.has_eq_any] at h2
        simp [h1, h2]
      have hrec := ih ({ c with entries := (kv.1, kv.2) :: c.entries })
        hcap (by simp at hlen ⊢; omega) hrest hnd.2
      unfold LRU.setAll
      rw [hset]
      simp only [hrec]
      simp [List.reverse_cons, List.append_assoc]

/-- Unfolding equation of setAll on a cons. -/
theorem LRU.setAll_cons [BEq K] (c : LRU K V) (kv : K × V) (rest : List (K × V)) :
    c.setAll (kv :: rest) =
      (((c.set kv.1 kv.2).1.setAll rest).1,
        (c.set kv.1 kv.2).2.toList ++ ((c.set kv.1 kv.2).1.setAll rest).2) := rfl

/-- setAll over a concatenation runs the first block, then the second on
the resulting cache, concatenating the evicted pairs in order. -/
theorem LRU.setAll_append [BEq K] (c : LRU K V) (xs ys : List (K × V)) :
    c.setAll (xs ++ ys) =
      (((c.setAll xs).1.setAll ys).1,
        (c.setAll xs).2 ++ ((c.setAll xs).1.setAll ys).2) := by
  induction xs generalizing c with
  | nil => simp [LRU.setAll]
  | cons kv rest ih =>
      simp only [List.cons_append, LRU.setAll_cons, ih, List.append_assoc]

/-- A set of a fresh key into a cache at or above a finite capacity
prepends the entry and evicts the recency tail. -/
theorem LRU.set_fresh_over [BEq K] (c : LRU K V) {k : K} (v : V) {cap : Nat}
    (hcap : c.capacity = some cap) (hfresh : c.has k = false)
    (hlen : cap ≤ c.entries.length) :
    c.set k v = ({ c with entries := ((k, v) :: c.entries).dropLast },
      ((k, v) :: c.entries).getLast?) := by
  unfold LRU.set
  rw [hfresh]
  simp [hcap]
  omega

/-- Inserting a finite capacity plus one pairwise distinct fresh keys into
the empty cache evicts exactly the first-inserted entry and no other. -/
theorem lru_overflow_evicts_first [BEq K] [LawfulBEq K] (cap : Nat) (kv0 : K × V)
    (kvs : List (K × V)) (hcap : 1 ≤ cap) (hlen : kvs.length = cap)
    (hnd : ((kv0 :: kvs).map Prod.fst).Nodup) :
    (LRU.setAll ⟨some cap, []⟩ (kv0 :: kvs)).2 = [kv0] := by
  rcases List.eq_nil_or_concat kvs with rfl | ⟨mid, last, rfl⟩
  · simp at hlen
    omega
  · rw [List.concat_eq_append] at hlen hnd ⊢
    rw [List.map_cons, List.map_append, List.map_cons, List.map_nil,
      List.nodup_cons, List.nodup_append] at hnd
    obtain ⟨hk0, hmidnd, -, hdisj⟩ := hnd
    have hk0mid : kv0.1 ∉ mid.map Prod.fst :=
      fun hm => hk0 (List.mem_append.mpr (Or.inl hm))
    have hk0last : kv0.1 ≠ last.1 :=
      fun he => hk0 (List.mem_append.mpr (Or.inr (by simp [he])))
    have hlastmid : last.1 ∉ mid.map Prod.fst := fun hm => hdisj hm (by simp)
    have hmidlen : mid.length + 1 = cap := by simpa using hlen
    have hfill := LRU.setAll_fill cap (kv0 :: mid)
      (⟨some cap, []⟩ : LRU K V) rfl (by simp; omega)
      (fun kv _ => rfl) (by simp [List.nodup_cons, hk0mid, hmidnd])
    have hsplit : kv0 :: (mid ++ [last]) = (kv0 :: mid) ++ [last] := by simp
    rw [hsplit, LRU.setAll_append, hfill]
    have hc1has : ((⟨some cap, (kv0 :: mid).reverse ++ []⟩ : LRU K V)).has last.1 = false := by
      rw [LRU.has_eq_any]
      rw [List.any_eq_false]
      intro x hx
      simp only [List.append_nil, List.reverse_cons, List.mem_append,
        List.mem_reverse, List.mem_singleton] at hx
      rcases hx with hx | rfl
      · have hxm : x.1 ∈ mid.map Prod.fst := List.mem_map.mpr ⟨x, hx, rfl⟩
        simpa using fun (he : x.1 = last.1) => hlastmid (he ▸ hxm)
      · simpa using hk0last
    have hset := LRU.set_fresh_over
      (⟨some cap, (kv0 :: mid).reverse ++ []⟩ : LRU K V) last.2 rfl hc1has
      (by simp; omega)
    simp only [LRU.setAll_cons, LRU.setAll, hset]
    have hglast : (last :: (mid.reverse ++ [kv0])).getLast? = some kv0 := by
      rw [show last :: (mid.reverse ++ [kv0]) =
        (last :: mid.reverse) ++ [kv0] from rfl]
      exact List.getLast?_concat _
    simp [hglast]

/-- A get on a present key followed by a set of a fresh key keeps the
read key cached (the get made it most recently used) and any eviction the
set performs removes some other key. Two entries are required: a
one-entry cache holds nothing but the read key to evict. -/
theorem lru_get_protects [BEq K] [LawfulBEq K] (c : LRU K V) (k k' : K) (v' : V)
    (hnd : (c.entries.map Prod.fst).Nodup)
    (hk : c.has k = true) (hk' : c.has k' = false)
    (hlen : 2 ≤ c.entries.length) :
    ((c.get k).2.set k' v').1.has k = true ∧
      ∀ ev, ((c.get k).2.set k' v').2 = some ev → ev.1 ≠ k := by
  have hksome : (c.entries.find? (fun p => p.1 == k)).isSome = true := by
    unfold LRU.has LRU.find at hk
    cases hf : c.entries.find? (fun p => p.1 == k) with
    | none => rw [hf] at hk; simp at hk
    | some kv => rfl
  obtain ⟨kv, hfind⟩ := Option.isSome_iff_exists.mp hksome
  have hkv1 : kv.1 = k := by simpa using List.find?_some hfind
  have hkk : k ≠ k' := by
    intro he
    rw [he] at hk
    rw [hk] at hk'
    exact Bool.true_eq_false.mp hk'
  have hget : (c.get k).2 =
      { c with entries := kv :: c.entries.filter (fun p => !(p.1 == k)) } := by
    unfold LRU.get
    rw [hfind]
  have hfilter : c.entries.filter (fun p => !(p.1 == k)) ≠ [] := by
    intro hnil
    rw [List.filter_eq_nil_iff] at hnil
    rcases hent : c.entries with _ | ⟨x, _ | ⟨y, rest⟩⟩
    · rw [hent] at hlen; simp at hlen
    · rw [hent] at hlen; simp at hlen
    · have hx : (x.1 == k) = true := by
        have := hnil x (by rw [hent]; simp)
        simpa using this
      have hy : (y.1 == k) = true := by
        have := hnil y (by rw [hent]; simp)
        simpa using this
      rw [hent, List.map_cons, List.map_cons, List.nodup_cons] at hnd
      exact hnd.1 (by simp [show x.1 = k by simpa using hx,
        show y.1 = k by simpa using hy])
  have hhask' : ((c.get k).2).has k' = false := by
    rw [hget, LRU.has_eq_any]
    rw [List.any_eq_false]
    intro x hx
    rcases List.mem_cons.mp hx with rfl | hxf
    · simp only [hkv1]
      simpa using hkk
    · rw [LRU.has_eq_any, List.any_eq_false] at hk'
      exact hk' x (List.mem_filter.mp hxf).1
  rw [hget] at hhask' ⊢
  set flt := c.entries.filter (fun p => !(p.1 == k)) with hflt
  unfold LRU.set
  rw [hhask']
  simp only [Bool.false_eq_true, if_false]
  split
  · rename_i hover
    constructor
    · rw [LRU.has_eq_any]
      rw [List.dropLast_cons_of_ne_nil (by simp),
        List.dropLast_cons_of_ne_nil hfilter]
      simp [hkv1]
    · intro ev hev
      rw [List.getLast?_cons_cons] at hev
      have hmem : ev ∈ kv :: flt := by
        rcases List.mem_getLast?_eq_getLast
          (show ev ∈ (kv :: flt).getLast? from hev) with ⟨hne, hevl⟩
        rw [hevl]
        exact List.getLast_mem hne
      rcases List.mem_cons.mp hmem with rfl | hevf
      · rcases hfltl : flt with _ | ⟨z, zs⟩
        · exact absurd hfltl hfilter
        · rw [hfltl, List.getLast?_cons_cons] at hev
          have hmz : ev ∈ z :: zs := by
            rcases List.mem_getLast?_eq_getLast
              (show ev ∈ (z :: zs).getLast? from hev) with ⟨hne, hevl⟩
            rw [hevl]
            exact List.getLast_mem hne
          have hevflt : ev ∈ flt := by rw [hfltl]; exact hmz
          have := (List.mem_filter.mp hevflt).2
          simpa using this
      · have := (List.mem_filter.mp hevf).2
        simpa using this
  · constructor
    · rw [LRU.has_eq_any]
      simp [hkv1]
    · intro ev hev
      simp at hev

/-- A fresh insert lands at the head of the recency list: it is the most
recently used entry afterwards. One unit of capacity is required, else
the insert evicts itself at once. -/
theorem lru_fresh_insert_mru [BEq K] (c : LRU K V) (cap : Nat) (k : K) (v : V)
    (hcap : c.capacity = some cap) (hone : 1 ≤ cap) :
    ((c.set k v).1.entries.head? = some (k, v)) := by
  unfold LRU.set
  by_cases h : c.has k
  · simp [h]
  · simp only [h, Bool.false_eq_true, if_false, hcap]
    split
    · rename_i hover
      have hne : c.entries ≠ [] := by
        intro hnil
        rw [hnil] at hover
        simp at hover
        omega
      rw [List.dropLast_cons_of_ne_nil hne]
      rfl
    · rfl

/-- Claim C7: in the count-capacity LRU cache, inserting capacity plus one
distinct keys with no intervening reads evicts exactly the first-inserted
key and no other; a get on a present key between two inserts keeps that
key cached through the next eviction, which removes the recency tail
instead; and a fresh insert becomes the most recently used entry. -/
theorem C7_lru_recency_discipline :
    (∀ (cap : Nat) (kv0 : Nat × Nat) (kvs : List (Nat × Nat)),
      1 ≤ cap → kvs.length = cap → ((kv0 :: kvs).map Prod.fst).Nodup →
      (LRU.setAll ⟨some cap, []⟩ (kv0 :: kvs)).2 = [kv0]) ∧
    (∀ (c : LRU Nat Nat) (k k' v' : Nat),
      (c.entries.map Prod.fst).Nodup → c.has k = true → c.has k' = false →
      2 ≤ c.entries.length →
      ((c.get k).2.set k' v').1.has k = true ∧
        ∀ ev, ((c.get k).2.set k' v').2 = some ev → ev.1 ≠ k) ∧
    (∀ (c : LRU Nat Nat) (cap k v : Nat), c.capacity = some cap → 1 ≤ cap →
      ((c.set k v).1.entries.head? = some (k, v))) :=
  ⟨fun cap kv0 kvs h1 h2 h3 => lru_overflow_evicts_first cap kv0 kvs h1 h2 h3,
   fun c k k' v' h1 h2 h3 h4 => lru_get_protects c k k' v' h1 h2 h3 h4,
   fun c cap k v h1 h2 => lru_fresh_insert_mru c cap k v h1 h2⟩

/-- Witness for C7: capacity 2 with keys 0, 1, 2 evicts exactly key 0; a
get on key 5 in a full two-entry cache protects it across the insert of
key 7, and that insert lands at the head. -/
theorem C7_lru_recency_discipline_witness :
    (LRU.setAll ⟨some 2, []⟩ [(0, 10), (1, 11), (2, 12)]).2 = [(0, 10)] ∧
    (((⟨some 2, [(6, 60), (5, 50)]⟩ : LRU Nat Nat).get 5).2.set 7 70).1.has 5 =
      true ∧
    (((⟨some 2, [(6, 60), (5, 50)]⟩ : LRU Nat Nat).set 7 70).1.entries.head? =
      some (7, 70)) :=
  ⟨C7_lru_recency_discipline.1 2 (0, 10) [(1, 11), (2, 12)] (by decide) (by decide)
      (by decide),
   (C7_lru_recency_discipline.2.1 (⟨some 2, [(6, 60), (5, 50)]⟩ : LRU Nat Nat)
      5 7 70 (by decide) (by decide) (by decide) (by decide)).1,
   C7_lru_recency_discipline.2.2 (⟨some 2, [(6, 60), (5, 50)]⟩ : LRU Nat Nat)
      2 7 70 rfl (by decide)⟩

end NglProxy
